import Mathlib

/-!
Shallow embedding of `SpheremapTool` (src/main.cpp) over exact rational
arithmetic.  The C++ program converts a six-image cubemap into a spheremap
via an inverse parabolic projection.  Floating-point values are modelled as
`ℚ`; the external `std::sqrtf` is modelled as an explicit function parameter
`sq : ℚ → ℚ` (its defining property is supplied as a hypothesis where
needed).  A `static_cast<int>` of a float truncates toward zero, which is
modelled by `cppTrunc`.  The hard asserts and the out-of-bounds reads of
`readTexel` are made explicit in the `TexelResult` type.
-/

/-- A decoded face image: width, height and the flat pixel buffer
(`u32` packed colors, row-major).  Mirrors `struct Image` in main.cpp. -/
structure Image where
  width : Int
  height : Int
  data : List Nat
deriving DecidableEq, Repr

/-- A cubemap: exactly six face images, indexed 0..5 in the order
+X, -X, +Y, -Y, +Z, -Z (the `CubeFace` enum of main.cpp). -/
structure Cubemap where
  faces : Fin 6 → Image

/-- Result of a texel access: a successfully read packed color, a failed
hard assert (`assert(...)` in `readTexel`), or an undefined out-of-range
buffer read that the asserts do not catch. -/
inductive TexelResult where
  | ok (color : Nat)
  | assertFailed
  | oobRead
deriving DecidableEq, Repr

/-- The body of `Cubemap::readTexel` after the `face` assert: asserts
`x < width` and `y < height`, then reads `img_data[y * width + x]`.
There is no lower-bound assert on `x` or `y`: a negative coordinate passes
the asserts, and the resulting flat-buffer access is in range only by
accident (an access outside the buffer is undefined behavior, modelled
as `.oobRead`). -/
def readTexelImg (img : Image) (x y : Int) : TexelResult :=
  if x < img.width ∧ y < img.height then
    if 0 ≤ y * img.width + x then
      (img.data[(y * img.width + x).toNat]?).elim .oobRead .ok
    else .oobRead
  else .assertFailed

/-- `Cubemap::readTexel(face, x, y)`: first asserts `face < NUM_FACES`,
then reads from `faces[face]`. -/
def readTexel (cm : Cubemap) (face : Nat) (x y : Int) : TexelResult :=
  if h : face < 6 then readTexelImg (cm.faces ⟨face, h⟩) x y
  else .assertFailed

/-- The `if`/`else if` chain of `computeTexCoords` choosing `major_axis`:
`a[0] >= a[1] && a[0] >= a[2]` first, then axis 1, then axis 2.  `none`
models the path on which the C++ leaves `major_axis` uninitialized. -/
def majorAxis? (x y z : ℚ) : Option Nat :=
  if |x| ≥ |y| ∧ |x| ≥ |z| then some 0
  else if |y| ≥ |x| ∧ |y| ≥ |z| then some 1
  else if |z| ≥ |x| ∧ |z| ≥ |y| then some 2
  else none

/-- `v[axis]` for the direction components `v = {x, y, z}`. -/
def axisComponent (x y z : ℚ) (axis : Nat) : ℚ :=
  if axis = 0 then x else if axis = 1 then y else z

/-- `major_axis = major_axis * 2 + 1` when `v[major_axis] < 0`, else
`major_axis * 2`: the 0..5 cube-face index. -/
def faceIndex (x y z : ℚ) (axis : Nat) : Nat :=
  if axisComponent x y z axis < 0 then axis * 2 + 1 else axis * 2

/-- The `switch (major_axis)` of `computeTexCoords`: per-face
`(tmp_s, tmp_t, m)`.  `none` models a fall-through of the switch, which
would leave all three outputs uninitialized. -/
def faceParams (x y z : ℚ) (face : Nat) : Option (ℚ × ℚ × ℚ) :=
  if face = 0 then some (-z, -y, |x|)
  else if face = 1 then some (z, -y, |x|)
  else if face = 2 then some (x, z, |y|)
  else if face = 3 then some (x, -z, |y|)
  else if face = 4 then some (x, -y, |z|)
  else if face = 5 then some (-x, -y, |z|)
  else none

/-- `Cubemap::computeTexCoords(x, y, z)`: classifies a direction vector
onto a cube face and produces the face-local coordinates
`out_s = 0.5 * (tmp_s / m + 1)`, `out_t = 0.5 * (tmp_t / m + 1)`.
Returns `none` exactly on the paths where the C++ code reads an
uninitialized variable. -/
def computeTexCoords (x y z : ℚ) : Option (Nat × ℚ × ℚ) :=
  (majorAxis? x y z).bind fun axis =>
    (faceParams x y z (faceIndex x y z axis)).bind fun p =>
      some (faceIndex x y z axis,
        (1/2) * (p.1 / p.2.2 + 1), (1/2) * (p.2.1 / p.2.2 + 1))

/-- C++ `static_cast<int>` applied to a (here: exact rational) floating
value: truncation toward zero. -/
def cppTrunc (q : ℚ) : Int :=
  if 0 ≤ q then ⌊q⌋ else ⌈q⌉

/-- `Cubemap::sampleFace(face, s, t)`: nearest-neighbor sample.
`x = min(int(s * width), width - 1)`, `y = min(int(t * height), height - 1)`,
then delegates to `readTexel`.  (The C++ indexes `faces[face]` directly;
a face value outside 0..5 would already be an out-of-range array read.) -/
def sampleFace (cm : Cubemap) (face : Nat) (s t : ℚ) : TexelResult :=
  if h : face < 6 then
    readTexel cm face
      (min (cppTrunc (s * ((cm.faces ⟨face, h⟩).width : ℚ)))
        ((cm.faces ⟨face, h⟩).width - 1))
      (min (cppTrunc (t * ((cm.faces ⟨face, h⟩).height : ℚ)))
        ((cm.faces ⟨face, h⟩).height - 1))
  else .oobRead

/-- `unlerp(val, max) = (val + 0.5f) / max`: the coordinate of the center
of pixel `val` in the unit interval. -/
def unlerp (val mx : Nat) : ℚ :=
  ((val : ℚ) + 1/2) / (mx : ℚ)

/-- `rev_p = 16.0f * (s - s*s + t - t*t) - 4.0f` from the pixel loop. -/
def revP (s t : ℚ) : ℚ :=
  16 * (s - s*s + t - t*t) - 4

/-- The direction vector `(vx, vy, vz)` computed for unit-square
coordinates `(s, t)` in the pixel loop of `main`; `sq` models
`std::sqrtf`. -/
def pixelDirection (sq : ℚ → ℚ) (s t : ℚ) : ℚ × ℚ × ℚ :=
  if revP s t < 0 then (0, 0, -1)
  else
    (sq (revP s t) * (2*s - 1),
     sq (revP s t) * (-(2*t - 1)),
     8 * (s - s*s + t - t*t) - 3)

/-- The body of the pixel loop in `main` for output pixel `(x, y)`:
compute the direction vector, classify it with `computeTexCoords`, sample
the chosen face.  The `none` case of `computeTexCoords` is the C++
uninitialized-variable path (undefined behavior). -/
def spheremapPixel (sq : ℚ → ℚ) (cm : Cubemap) (N x y : Nat) : TexelResult :=
  (computeTexCoords
      (pixelDirection sq (unlerp x N) (unlerp y N)).1
      (pixelDirection sq (unlerp x N) (unlerp y N)).2.1
      (pixelDirection sq (unlerp x N) (unlerp y N)).2.2).elim
    .oobRead
    (fun r => sampleFace cm r.1 r.2.1 r.2.2)

/-- The iteration order of the double pixel loop in `main`:
`y` outer from 0 to N-1, `x` inner from 0 to N-1. -/
def pixelList (N : Nat) : List (Nat × Nat) :=
  ((List.range N).map (fun y => (List.range N).map (fun x => (x, y)))).flatten

/-- The output buffer of `main`: a `std::vector<u32>` of size `N * N`
(zero-initialized, modelled as `.ok 0` entries), written by the pixel loop
via `out_data[y * output_size + x] = ...`. -/
def generate (sq : ℚ → ℚ) (cm : Cubemap) (N : Nat) : List TexelResult :=
  (pixelList N).foldl
    (fun buf p => buf.set (p.2 * N + p.1) (spheremapPixel sq cm N p.1 p.2))
    (List.replicate (N * N) (.ok 0))

/-- Well-formedness of a decoded image: positive dimensions and a buffer
of exactly `width * height` texels (what `stbi_load(..., 4)` produces). -/
def Image.wf (img : Image) : Prop :=
  0 < img.width ∧ 0 < img.height ∧
    img.data.length = img.width.toNat * img.height.toNat

instance (img : Image) : Decidable img.wf := by
  unfold Image.wf; infer_instance

/-- Well-formedness of a cubemap: all six faces successfully decoded. -/
def Cubemap.wf (cm : Cubemap) : Prop :=
  ∀ f : Fin 6, (cm.faces f).wf

instance (cm : Cubemap) : Decidable cm.wf := by
  unfold Cubemap.wf; infer_instance

/-! ### Spec-side definitions

These follow the wording of the specification (and of the claims), to be
compared against the source-derived `computeTexCoords` above. -/

/-- Spec wording: the major axis is the component with the largest
absolute value; a tie resolves toward the lower-indexed axis. -/
def specMajorAxis (x y z : ℚ) : Nat :=
  if |x| = max |x| (max |y| |z|) then 0
  else if |y| = max |x| (max |y| |z|) then 1
  else 2

/-- Spec wording: face index `2 * axis` when the signed major component is
non-negative, `2 * axis + 1` when it is negative. -/
def specFace (x y z : ℚ) : Nat :=
  if 0 ≤ axisComponent x y z (specMajorAxis x y z)
  then 2 * specMajorAxis x y z
  else 2 * specMajorAxis x y z + 1

/-- Spec wording: raw `s` per the per-face table
(+X: -z, -X: +z, +Y: +x, -Y: +x, +Z: +x, -Z: -x). -/
def specRawS (x y z : ℚ) : ℚ :=
  if specFace x y z = 0 then -z
  else if specFace x y z = 1 then z
  else if specFace x y z = 2 then x
  else if specFace x y z = 3 then x
  else if specFace x y z = 4 then x
  else -x

/-- Spec wording: raw `t` per the per-face table
(+X: -y, -X: -y, +Y: +z, -Y: -z, +Z: -y, -Z: -y). -/
def specRawT (x y z : ℚ) : ℚ :=
  if specFace x y z = 2 then z
  else if specFace x y z = 3 then -z
  else -y

/-- Spec wording: `m` is the major axis's absolute value. -/
def specM (x y z : ℚ) : ℚ :=
  |axisComponent x y z (specMajorAxis x y z)|

/-- Spec wording: `s = 0.5 * (raw_s / m + 1)`. -/
def specS (x y z : ℚ) : ℚ :=
  (1/2) * (specRawS x y z / specM x y z + 1)

/-- Spec wording: `t = 0.5 * (raw_t / m + 1)`. -/
def specT (x y z : ℚ) : ℚ :=
  (1/2) * (specRawT x y z / specM x y z + 1)

/-! ### Concrete cubemaps used for witnesses and counterexamples -/

/-- A cubemap of six 1x1 faces with pairwise distinct colors 10..15. -/
def exCube : Cubemap := ⟨fun f => ⟨1, 1, [10 + f.val]⟩⟩

/-- A cubemap of six 2x2 faces; face `f` holds colors `10*f .. 10*f+3`. -/
def exCube2 : Cubemap :=
  ⟨fun f => ⟨2, 2, [10 * f.val, 10 * f.val + 1, 10 * f.val + 2, 10 * f.val + 3]⟩⟩

/-- Spec wording (C2): the per-pixel direction as the claim states it:
`rev_p = 16*(s - s^2 + t - t^2) - 4`; direction `(0, 0, -1)` when
`rev_p < 0`, else `(r*(2s-1), -r*(2t-1), 8*(s - s^2 + t - t^2) - 3)` with
`r = sqrt(rev_p)`. -/
def specPixelDirection (sq : ℚ → ℚ) (s t : ℚ) : ℚ × ℚ × ℚ :=
  if 16 * (s - s^2 + t - t^2) - 4 < 0 then (0, 0, -1)
  else (sq (16 * (s - s^2 + t - t^2) - 4) * (2*s - 1),
        -(sq (16 * (s - s^2 + t - t^2) - 4) * (2*t - 1)),
        8 * (s - s^2 + t - t^2) - 3)

/-- Spec wording (C2): the sampled color of output pixel `(x, y)`:
map the pixel center to `s = (x+0.5)/N`, `t = (y+0.5)/N`, build the
direction, classify and sample it via the cubemap store. -/
def specPixel (sq : ℚ → ℚ) (cm : Cubemap) (N x y : Nat) : TexelResult :=
  (computeTexCoords
      (specPixelDirection sq (((x:ℚ) + 1/2) / (N:ℚ)) (((y:ℚ) + 1/2) / (N:ℚ))).1
      (specPixelDirection sq (((x:ℚ) + 1/2) / (N:ℚ)) (((y:ℚ) + 1/2) / (N:ℚ))).2.1
      (specPixelDirection sq (((x:ℚ) + 1/2) / (N:ℚ)) (((y:ℚ) + 1/2) / (N:ℚ))).2.2).elim
    .oobRead
    (fun r => sampleFace cm r.1 r.2.1 r.2.2)

/-! ### Branch characterizations of `computeTexCoords` -/

theorem majorAxis_0 (x y z : ℚ) (h1 : |y| ≤ |x|) (h2 : |z| ≤ |x|) :
    majorAxis? x y z = some 0 := by
  rw [majorAxis?, if_pos ⟨h1, h2⟩]

theorem majorAxis_1 (x y z : ℚ) (h0 : ¬(|y| ≤ |x| ∧ |z| ≤ |x|))
    (h1 : |x| ≤ |y|) (h2 : |z| ≤ |y|) :
    majorAxis? x y z = some 1 := by
  rw [majorAxis?, if_neg h0, if_pos ⟨h1, h2⟩]

theorem majorAxis_2 (x y z : ℚ) (h0 : ¬(|y| ≤ |x| ∧ |z| ≤ |x|))
    (h1 : ¬(|x| ≤ |y| ∧ |z| ≤ |y|)) (h2 : |x| ≤ |z|) (h3 : |y| ≤ |z|) :
    majorAxis? x y z = some 2 := by
  rw [majorAxis?, if_neg h0, if_neg h1, if_pos ⟨h2, h3⟩]

/-- The three conditions of the `if`/`else if` chain cover every direction
vector (a linear order always has a maximum of three elements). -/
theorem majorCases (x y z : ℚ) :
    (|y| ≤ |x| ∧ |z| ≤ |x|) ∨
    (¬(|y| ≤ |x| ∧ |z| ≤ |x|) ∧ (|x| ≤ |y| ∧ |z| ≤ |y|)) ∨
    (¬(|y| ≤ |x| ∧ |z| ≤ |x|) ∧ ¬(|x| ≤ |y| ∧ |z| ≤ |y|) ∧
      (|x| ≤ |z| ∧ |y| ≤ |z|)) := by
  by_cases h0 : |y| ≤ |x| ∧ |z| ≤ |x|
  · exact Or.inl h0
  by_cases h1 : |x| ≤ |y| ∧ |z| ≤ |y|
  · exact Or.inr (Or.inl ⟨h0, h1⟩)
  refine Or.inr (Or.inr ⟨h0, h1, ?_⟩)
  push_neg at h0 h1
  rcases le_total |y| |x| with h | h
  · have := h0 h
    exact ⟨this.le, h.trans this.le⟩
  · have := h1 h
    exact ⟨h.trans this.le, this.le⟩

theorem axisComponent_zero (x y z : ℚ) : axisComponent x y z 0 = x := rfl

theorem axisComponent_one (x y z : ℚ) : axisComponent x y z 1 = y := rfl

theorem axisComponent_two (x y z : ℚ) : axisComponent x y z 2 = z := rfl

theorem ctc_posX (x y z : ℚ) (h1 : |y| ≤ |x|) (h2 : |z| ≤ |x|) (hx : ¬ x < 0) :
    computeTexCoords x y z =
      some (0, (1/2) * (-z / |x| + 1), (1/2) * (-y / |x| + 1)) := by
  have hf : faceIndex x y z 0 = 0 := by
    rw [faceIndex, axisComponent_zero, if_neg hx]
  rw [computeTexCoords, majorAxis_0 x y z h1 h2, Option.some_bind, hf]
  rfl

theorem ctc_negX (x y z : ℚ) (h1 : |y| ≤ |x|) (h2 : |z| ≤ |x|) (hx : x < 0) :
    computeTexCoords x y z =
      some (1, (1/2) * (z / |x| + 1), (1/2) * (-y / |x| + 1)) := by
  have hf : faceIndex x y z 0 = 1 := by
    rw [faceIndex, axisComponent_zero, if_pos hx]
  rw [computeTexCoords, majorAxis_0 x y z h1 h2, Option.some_bind, hf]
  rfl

theorem ctc_posY (x y z : ℚ) (h0 : ¬(|y| ≤ |x| ∧ |z| ≤ |x|))
    (h1 : |x| ≤ |y|) (h2 : |z| ≤ |y|) (hy : ¬ y < 0) :
    computeTexCoords x y z =
      some (2, (1/2) * (x / |y| + 1), (1/2) * (z / |y| + 1)) := by
  have hf : faceIndex x y z 1 = 2 := by
    rw [faceIndex, axisComponent_one, if_neg hy]
  rw [computeTexCoords, majorAxis_1 x y z h0 h1 h2, Option.some_bind, hf]
  rfl

theorem ctc_negY (x y z : ℚ) (h0 : ¬(|y| ≤ |x| ∧ |z| ≤ |x|))
    (h1 : |x| ≤ |y|) (h2 : |z| ≤ |y|) (hy : y < 0) :
    computeTexCoords x y z =
      some (3, (1/2) * (x / |y| + 1), (1/2) * (-z / |y| + 1)) := by
  have hf : faceIndex x y z 1 = 3 := by
    rw [faceIndex, axisComponent_one, if_pos hy]
  rw [computeTexCoords, majorAxis_1 x y z h0 h1 h2, Option.some_bind, hf]
  rfl

theorem ctc_posZ (x y z : ℚ) (h0 : ¬(|y| ≤ |x| ∧ |z| ≤ |x|))
    (h1 : ¬(|x| ≤ |y| ∧ |z| ≤ |y|)) (h2 : |x| ≤ |z|) (h3 : |y| ≤ |z|)
    (hz : ¬ z < 0) :
    computeTexCoords x y z =
      some (4, (1/2) * (x / |z| + 1), (1/2) * (-y / |z| + 1)) := by
  have hf : faceIndex x y z 2 = 4 := by
    rw [faceIndex, axisComponent_two, if_neg hz]
  rw [computeTexCoords, majorAxis_2 x y z h0 h1 h2 h3, Option.some_bind, hf]
  rfl

theorem ctc_negZ (x y z : ℚ) (h0 : ¬(|y| ≤ |x| ∧ |z| ≤ |x|))
    (h1 : ¬(|x| ≤ |y| ∧ |z| ≤ |y|)) (h2 : |x| ≤ |z|) (h3 : |y| ≤ |z|)
    (hz : z < 0) :
    computeTexCoords x y z =
      some (5, (1/2) * (-x / |z| + 1), (1/2) * (-y / |z| + 1)) := by
  have hf : faceIndex x y z 2 = 5 := by
    rw [faceIndex, axisComponent_two, if_pos hz]
  rw [computeTexCoords, majorAxis_2 x y z h0 h1 h2 h3, Option.some_bind, hf]
  rfl

/-- The projected coordinate `0.5 * (r / m + 1)` lies in `[0, 1]`
whenever `|r| ≤ m` (also in the degenerate case `m = 0`, where division
by zero yields zero). -/
theorem stBound (r m : ℚ) (h : |r| ≤ m) :
    0 ≤ (1/2) * (r / m + 1) ∧ (1/2) * (r / m + 1) ≤ 1 := by
  rcases lt_or_eq_of_le ((abs_nonneg r).trans h) with hm | hm
  · have hu : r / m ≤ 1 := (div_le_one hm).mpr ((le_abs_self r).trans h)
    have hl : -r / m ≤ 1 := (div_le_one hm).mpr ((neg_le_abs r).trans h)
    rw [neg_div] at hl
    constructor <;> linarith
  · have hr : r = 0 := abs_eq_zero.mp (le_antisymm (hm ▸ h) (abs_nonneg r))
    rw [hr, ← hm]
    norm_num

/-! ### Spec-side branch characterizations -/

theorem spec_posX (x y z : ℚ) (h1 : |y| ≤ |x|) (h2 : |z| ≤ |x|) (hx : ¬ x < 0) :
    specFace x y z = 0 ∧ specS x y z = (1/2) * (-z / |x| + 1) ∧
      specT x y z = (1/2) * (-y / |x| + 1) := by
  have hM : |x| = max |x| (max |y| |z|) := (max_eq_left (max_le h1 h2)).symm
  have hA : specMajorAxis x y z = 0 := by rw [specMajorAxis, if_pos hM]
  have hF : specFace x y z = 0 := by
    rw [specFace, hA, axisComponent_zero, if_pos (not_lt.mp hx)]
  refine ⟨hF, ?_, ?_⟩
  · rw [specS, specRawS, hF, specM, hA, axisComponent_zero]; rfl
  · rw [specT, specRawT, hF, specM, hA, axisComponent_zero]; rfl

theorem spec_negX (x y z : ℚ) (h1 : |y| ≤ |x|) (h2 : |z| ≤ |x|) (hx : x < 0) :
    specFace x y z = 1 ∧ specS x y z = (1/2) * (z / |x| + 1) ∧
      specT x y z = (1/2) * (-y / |x| + 1) := by
  have hM : |x| = max |x| (max |y| |z|) := (max_eq_left (max_le h1 h2)).symm
  have hA : specMajorAxis x y z = 0 := by rw [specMajorAxis, if_pos hM]
  have hF : specFace x y z = 1 := by
    rw [specFace, hA, axisComponent_zero, if_neg (not_le.mpr hx)]
  refine ⟨hF, ?_, ?_⟩
  · rw [specS, specRawS, hF, specM, hA, axisComponent_zero]; rfl
  · rw [specT, specRawT, hF, specM, hA, axisComponent_zero]; rfl

theorem spec_posY (x y z : ℚ) (h0 : ¬(|y| ≤ |x| ∧ |z| ≤ |x|))
    (h1 : |x| ≤ |y|) (h2 : |z| ≤ |y|) (hy : ¬ y < 0) :
    specFace x y z = 2 ∧ specS x y z = (1/2) * (x / |y| + 1) ∧
      specT x y z = (1/2) * (z / |y| + 1) := by
  have hmax1 : |y| ≤ max |x| (max |y| |z|) := le_max_of_le_right (le_max_left _ _)
  have hmax2 : |z| ≤ max |x| (max |y| |z|) := le_max_of_le_right (le_max_right _ _)
  have hne : ¬(|x| = max |x| (max |y| |z|)) := fun hEq =>
    h0 ⟨hEq ▸ hmax1, hEq ▸ hmax2⟩
  have hM : |y| = max |x| (max |y| |z|) := by
    rw [max_eq_left h2, max_eq_right h1]
  have hA : specMajorAxis x y z = 1 := by
    rw [specMajorAxis, if_neg hne, if_pos hM]
  have hF : specFace x y z = 2 := by
    rw [specFace, hA, axisComponent_one, if_pos (not_lt.mp hy)]
  refine ⟨hF, ?_, ?_⟩
  · rw [specS, specRawS, hF, specM, hA, axisComponent_one]; rfl
  · rw [specT, specRawT, hF, specM, hA, axisComponent_one]; rfl

theorem spec_negY (x y z : ℚ) (h0 : ¬(|y| ≤ |x| ∧ |z| ≤ |x|))
    (h1 : |x| ≤ |y|) (h2 : |z| ≤ |y|) (hy : y < 0) :
    specFace x y z = 3 ∧ specS x y z = (1/2) * (x / |y| + 1) ∧
      specT x y z = (1/2) * (-z / |y| + 1) := by
  have hmax1 : |y| ≤ max |x| (max |y| |z|) := le_max_of_le_right (le_max_left _ _)
  have hmax2 : |z| ≤ max |x| (max |y| |z|) := le_max_of_le_right (le_max_right _ _)
  have hne : ¬(|x| = max |x| (max |y| |z|)) := fun hEq =>
    h0 ⟨hEq ▸ hmax1, hEq ▸ hmax2⟩
  have hM : |y| = max |x| (max |y| |z|) := by
    rw [max_eq_left h2, max_eq_right h1]
  have hA : specMajorAxis x y z = 1 := by
    rw [specMajorAxis, if_neg hne, if_pos hM]
  have hF : specFace x y z = 3 := by
    rw [specFace, hA, axisComponent_one, if_neg (not_le.mpr hy)]
  refine ⟨hF, ?_, ?_⟩
  · rw [specS, specRawS, hF, specM, hA, axisComponent_one]; rfl
  · rw [specT, specRawT, hF, specM, hA, axisComponent_one]; rfl

theorem spec_posZ (x y z : ℚ) (h0 : ¬(|y| ≤ |x| ∧ |z| ≤ |x|))
    (h1 : ¬(|x| ≤ |y| ∧ |z| ≤ |y|)) (h2 : |x| ≤ |z|) (h3 : |y| ≤ |z|)
    (hz : ¬ z < 0) :
    specFace x y z = 4 ∧ specS x y z = (1/2) * (x / |z| + 1) ∧
      specT x y z = (1/2) * (-y / |z| + 1) := by
  have hmax1 : |y| ≤ max |x| (max |y| |z|) := le_max_of_le_right (le_max_left _ _)
  have hmax2 : |z| ≤ max |x| (max |y| |z|) := le_max_of_le_right (le_max_right _ _)
  have hmax0 : |x| ≤ max |x| (max |y| |z|) := le_max_left _ _
  have hne0 : ¬(|x| = max |x| (max |y| |z|)) := fun hEq =>
    h0 ⟨hEq ▸ hmax1, hEq ▸ hmax2⟩
  have hne1 : ¬(|y| = max |x| (max |y| |z|)) := fun hEq =>
    h1 ⟨hEq ▸ hmax0, hEq ▸ hmax2⟩
  have hA : specMajorAxis x y z = 2 := by
    rw [specMajorAxis, if_neg hne0, if_neg hne1]
  have hF : specFace x y z = 4 := by
    rw [specFace, hA, axisComponent_two, if_pos (not_lt.mp hz)]
  refine ⟨hF, ?_, ?_⟩
  · rw [specS, specRawS, hF, specM, hA, axisComponent_two]; rfl
  · rw [specT, specRawT, hF, specM, hA, axisComponent_two]; rfl

theorem spec_negZ (x y z : ℚ) (h0 : ¬(|y| ≤ |x| ∧ |z| ≤ |x|))
    (h1 : ¬(|x| ≤ |y| ∧ |z| ≤ |y|)) (h2 : |x| ≤ |z|) (h3 : |y| ≤ |z|)
    (hz : z < 0) :
    specFace x y z = 5 ∧ specS x y z = (1/2) * (-x / |z| + 1) ∧
      specT x y z = (1/2) * (-y / |z| + 1) := by
  have hmax1 : |y| ≤ max |x| (max |y| |z|) := le_max_of_le_right (le_max_left _ _)
  have hmax2 : |z| ≤ max |x| (max |y| |z|) := le_max_of_le_right (le_max_right _ _)
  have hmax0 : |x| ≤ max |x| (max |y| |z|) := le_max_left _ _
  have hne0 : ¬(|x| = max |x| (max |y| |z|)) := fun hEq =>
    h0 ⟨hEq ▸ hmax1, hEq ▸ hmax2⟩
  have hne1 : ¬(|y| = max |x| (max |y| |z|)) := fun hEq =>
    h1 ⟨hEq ▸ hmax0, hEq ▸ hmax2⟩
  have hA : specMajorAxis x y z = 2 := by
    rw [specMajorAxis, if_neg hne0, if_neg hne1]
  have hF : specFace x y z = 5 := by
    rw [specFace, hA, axisComponent_two, if_neg (not_le.mpr hz)]
  refine ⟨hF, ?_, ?_⟩
  · rw [specS, specRawS, hF, specM, hA, axisComponent_two]; rfl
  · rw [specT, specRawT, hF, specM, hA, axisComponent_two]; rfl

/-- The source function agrees with the spec-side description everywhere. -/
theorem ctc_eq_spec (x y z : ℚ) :
    computeTexCoords x y z =
      some (specFace x y z, specS x y z, specT x y z) := by
  rcases majorCases x y z with ⟨h1, h2⟩ | ⟨h0, h1, h2⟩ | ⟨h0, h1, h2, h3⟩
  · rcases lt_or_le x 0 with hx | hx
    · rcases spec_negX x y z h1 h2 hx with ⟨hF, hS, hT⟩
      rw [ctc_negX x y z h1 h2 hx, hF, hS, hT]
    · have hx' := not_lt.mpr hx
      rcases spec_posX x y z h1 h2 hx' with ⟨hF, hS, hT⟩
      rw [ctc_posX x y z h1 h2 hx', hF, hS, hT]
  · rcases lt_or_le y 0 with hy | hy
    · rcases spec_negY x y z h0 h1 h2 hy with ⟨hF, hS, hT⟩
      rw [ctc_negY x y z h0 h1 h2 hy, hF, hS, hT]
    · have hy' := not_lt.mpr hy
      rcases spec_posY x y z h0 h1 h2 hy' with ⟨hF, hS, hT⟩
      rw [ctc_posY x y z h0 h1 h2 hy', hF, hS, hT]
  · rcases lt_or_le z 0 with hz | hz
    · rcases spec_negZ x y z h0 h1 h2 h3 hz with ⟨hF, hS, hT⟩
      rw [ctc_negZ x y z h0 h1 h2 h3 hz, hF, hS, hT]
    · have hz' := not_lt.mpr hz
      rcases spec_posZ x y z h0 h1 h2 h3 hz' with ⟨hF, hS, hT⟩
      rw [ctc_posZ x y z h0 h1 h2 h3 hz', hF, hS, hT]

/-- The spec face index is always one of the six valid faces. -/
theorem specFace_lt6 (x y z : ℚ) : specFace x y z < 6 := by
  have hA : specMajorAxis x y z ≤ 2 := by
    rw [specMajorAxis]; split_ifs <;> omega
  rw [specFace]; split_ifs <;> omega

/-- The face index determines the major axis: `axis = face / 2`. -/
theorem specFace_div2 (x y z : ℚ) :
    specFace x y z / 2 = specMajorAxis x y z := by
  rw [specFace]; split_ifs <;> omega

/-- The divisor `m` is the maximum of the three absolute components. -/
theorem specM_eq_max (x y z : ℚ) :
    specM x y z = max |x| (max |y| |z|) := by
  rw [specM, specMajorAxis]
  split_ifs with hx hy
  · rw [axisComponent_zero]; exact hx
  · rw [axisComponent_one]; exact hy
  · rw [axisComponent_two]
    rcases max_choice |x| (max |y| |z|) with h | h
    · exact absurd h.symm hx
    · rcases max_choice |y| |z| with h' | h'
      · exact absurd (h.trans h').symm hy
      · rw [h, h']

/-- For a nonzero direction the divisor is strictly positive. -/
theorem specM_pos (x y z : ℚ) (h : ¬(x = 0 ∧ y = 0 ∧ z = 0)) :
    0 < specM x y z := by
  rw [specM_eq_max]
  by_contra hc
  push_neg at hc
  exact h ⟨abs_nonpos_iff.mp ((le_max_left _ _).trans hc),
    abs_nonpos_iff.mp ((le_max_of_le_right (le_max_left _ _)).trans hc),
    abs_nonpos_iff.mp ((le_max_of_le_right (le_max_right _ _)).trans hc)⟩

/-- The produced coordinates are always in `[0, 1]` (exact arithmetic). -/
theorem spec_st_bounds (x y z : ℚ) :
    0 ≤ specS x y z ∧ specS x y z ≤ 1 ∧
      0 ≤ specT x y z ∧ specT x y z ≤ 1 := by
  rcases majorCases x y z with ⟨h1, h2⟩ | ⟨h0, h1, h2⟩ | ⟨h0, h1, h2, h3⟩
  · rcases lt_or_le x 0 with hx | hx
    · rcases spec_negX x y z h1 h2 hx with ⟨_, hS, hT⟩
      rw [hS, hT]
      rcases stBound z |x| h2 with ⟨u1, u2⟩
      rcases stBound (-y) |x| ((abs_neg y).symm ▸ h1) with ⟨v1, v2⟩
      exact ⟨u1, u2, v1, v2⟩
    · rcases spec_posX x y z h1 h2 (not_lt.mpr hx) with ⟨_, hS, hT⟩
      rw [hS, hT]
      rcases stBound (-z) |x| ((abs_neg z).symm ▸ h2) with ⟨u1, u2⟩
      rcases stBound (-y) |x| ((abs_neg y).symm ▸ h1) with ⟨v1, v2⟩
      exact ⟨u1, u2, v1, v2⟩
  · rcases lt_or_le y 0 with hy | hy
    · rcases spec_negY x y z h0 h1 h2 hy with ⟨_, hS, hT⟩
      rw [hS, hT]
      rcases stBound x |y| h1 with ⟨u1, u2⟩
      rcases stBound (-z) |y| ((abs_neg z).symm ▸ h2) with ⟨v1, v2⟩
      exact ⟨u1, u2, v1, v2⟩
    · rcases spec_posY x y z h0 h1 h2 (not_lt.mpr hy) with ⟨_, hS, hT⟩
      rw [hS, hT]
      rcases stBound x |y| h1 with ⟨u1, u2⟩
      rcases stBound z |y| h2 with ⟨v1, v2⟩
      exact ⟨u1, u2, v1, v2⟩
  · rcases lt_or_le z 0 with hz | hz
    · rcases spec_negZ x y z h0 h1 h2 h3 hz with ⟨_, hS, hT⟩
      rw [hS, hT]
      rcases stBound (-x) |z| ((abs_neg x).symm ▸ h2) with ⟨u1, u2⟩
      rcases stBound (-y) |z| ((abs_neg y).symm ▸ h3) with ⟨v1, v2⟩
      exact ⟨u1, u2, v1, v2⟩
    · rcases spec_posZ x y z h0 h1 h2 h3 (not_lt.mpr hz) with ⟨_, hS, hT⟩
      rw [hS, hT]
      rcases stBound x |z| h2 with ⟨u1, u2⟩
      rcases stBound (-y) |z| ((abs_neg y).symm ▸ h3) with ⟨v1, v2⟩
      exact ⟨u1, u2, v1, v2⟩

/-! ### Claims about `computeTexCoords` -/

/-- Claim C1: for every direction vector with a nonzero component of
maximal absolute value, `computeTexCoords` selects the major axis as the
component of largest absolute value (ties toward the lower-indexed axis),
maps it to face `2*axis` (non-negative) or `2*axis+1` (negative), computes
the raw `s`,`t` of the per-face table, and returns
`s = 0.5*(raw_s/m + 1)`, `t = 0.5*(raw_t/m + 1)` with `m` the major
absolute value — i.e. it agrees with the spec-side description. -/
theorem computeTexCoords_matches_spec (x y z : ℚ)
    (_h : 0 < max |x| (max |y| |z|)) :
    computeTexCoords x y z =
      some (specFace x y z, specS x y z, specT x y z) :=
  ctc_eq_spec x y z

theorem computeTexCoords_matches_spec_witness :
    0 < max |(3:ℚ)| (max |(-4:ℚ)| |(2:ℚ)|) ∧
      computeTexCoords 3 (-4) 2 =
        some (specFace 3 (-4) 2, specS 3 (-4) 2, specT 3 (-4) 2) :=
  ⟨by norm_num, computeTexCoords_matches_spec 3 (-4) 2 (by norm_num)⟩

/-- Claim C4: face classification is total: for every nonzero direction
vector, `computeTexCoords` produces exactly one face index (it never takes
the uninitialized-variable path), the face is one of the six valid ones,
the divisor `m` is strictly positive, and the produced pre-clamp
coordinates lie in `[0, 1]`. -/
theorem computeTexCoords_total (x y z : ℚ)
    (h : ¬(x = 0 ∧ y = 0 ∧ z = 0)) :
    ∃ f s t, computeTexCoords x y z = some (f, s, t) ∧ f < 6 ∧
      0 < specM x y z ∧ 0 ≤ s ∧ s ≤ 1 ∧ 0 ≤ t ∧ t ≤ 1 :=
  ⟨specFace x y z, specS x y z, specT x y z, ctc_eq_spec x y z,
    specFace_lt6 x y z, specM_pos x y z h,
    (spec_st_bounds x y z).1, (spec_st_bounds x y z).2.1,
    (spec_st_bounds x y z).2.2.1, (spec_st_bounds x y z).2.2.2⟩

theorem computeTexCoords_total_witness :
    ¬((0:ℚ) = 0 ∧ (0:ℚ) = 0 ∧ (-1:ℚ) = 0) ∧
      ∃ f s t, computeTexCoords 0 0 (-1) = some (f, s, t) ∧ f < 6 ∧
        0 < specM 0 0 (-1) ∧ 0 ≤ s ∧ s ≤ 1 ∧ 0 ≤ t ∧ t ≤ 1 :=
  ⟨by norm_num, computeTexCoords_total 0 0 (-1) (by norm_num)⟩

/-- Claim C6: each of the six canonical directions selects the
corresponding face in the order +X, -X, +Y, -Y, +Z, -Z and yields
`(s, t) = (0.5, 0.5)`. -/
theorem canonical_directions_centered :
    computeTexCoords 1 0 0 = some (0, 1/2, 1/2) ∧
    computeTexCoords (-1) 0 0 = some (1, 1/2, 1/2) ∧
    computeTexCoords 0 1 0 = some (2, 1/2, 1/2) ∧
    computeTexCoords 0 (-1) 0 = some (3, 1/2, 1/2) ∧
    computeTexCoords 0 0 1 = some (4, 1/2, 1/2) ∧
    computeTexCoords 0 0 (-1) = some (5, 1/2, 1/2) := by
  refine ⟨?_, ?_, ?_, ?_, ?_, ?_⟩
  · rw [ctc_posX] <;> norm_num
  · rw [ctc_negX] <;> norm_num
  · rw [ctc_posY] <;> norm_num
  · rw [ctc_negY] <;> norm_num
  · rw [ctc_posZ] <;> norm_num
  · rw [ctc_negZ] <;> norm_num

/-! ### The sampling layer: `sampleFace` and `readTexel` -/

theorem sampleFace_unfold (cm : Cubemap) (face : Nat) (hf : face < 6)
    (s t : ℚ) :
    sampleFace cm face s t = readTexel cm face
      (min (cppTrunc (s * ((cm.faces ⟨face, hf⟩).width : ℚ)))
        ((cm.faces ⟨face, hf⟩).width - 1))
      (min (cppTrunc (t * ((cm.faces ⟨face, hf⟩).height : ℚ)))
        ((cm.faces ⟨face, hf⟩).height - 1)) := by
  rw [sampleFace, dif_pos hf]

theorem cppTrunc_of_nonneg (q : ℚ) (h : 0 ≤ q) : cppTrunc q = ⌊q⌋ :=
  if_pos h

/-- Claim C3 is refuted as stated: at `s = -1/2` on a 1x1 face the C++
`static_cast<int>` truncates `-1/2` toward zero, so the code reads texel 0
and returns its color, while the claimed `min(floor(s*width), width-1)`
coordinate is `-1`, where `readTexel` performs a silent out-of-range
read.  The two results differ. -/
theorem sampleFace_floor_counterexample :
    sampleFace exCube 0 (-1/2) 0 = .ok 10 ∧
    min ⌊(-1/2 : ℚ) * ((exCube.faces ⟨0, by norm_num⟩).width : ℚ)⌋
      ((exCube.faces ⟨0, by norm_num⟩).width - 1) = -1 ∧
    readTexel exCube 0 (-1) 0 = .oobRead ∧
    TexelResult.ok 10 ≠ TexelResult.oobRead := by
  refine ⟨?_, ?_, by decide, by decide⟩
  · rw [sampleFace_unfold exCube 0 (by norm_num)]
    have h1 : cppTrunc ((-1/2 : ℚ) *
        ((exCube.faces ⟨0, by norm_num⟩).width : ℚ)) = 0 := by
      norm_num [cppTrunc, exCube]
    have h2 : cppTrunc ((0 : ℚ) *
        ((exCube.faces ⟨0, by norm_num⟩).height : ℚ)) = 0 := by
      norm_num [cppTrunc, exCube]
    rw [h1, h2]
    decide
  · norm_num [exCube]

/-- For non-negative coordinates the truncating cast agrees with the
floor, so `sampleFace` is floor-based nearest-neighbor sampling. -/
theorem sampleFace_floor_of_nonneg (cm : Cubemap) (face : Nat) (hf : face < 6)
    (s t : ℚ) (hw : 0 ≤ (cm.faces ⟨face, hf⟩).width)
    (hh : 0 ≤ (cm.faces ⟨face, hf⟩).height)
    (hs : 0 ≤ s) (ht : 0 ≤ t) :
    sampleFace cm face s t = readTexel cm face
      (min ⌊s * ((cm.faces ⟨face, hf⟩).width : ℚ)⌋
        ((cm.faces ⟨face, hf⟩).width - 1))
      (min ⌊t * ((cm.faces ⟨face, hf⟩).height : ℚ)⌋
        ((cm.faces ⟨face, hf⟩).height - 1)) := by
  rw [sampleFace_unfold cm face hf,
    cppTrunc_of_nonneg _ (mul_nonneg hs (by exact_mod_cast hw)),
    cppTrunc_of_nonneg _ (mul_nonneg ht (by exact_mod_cast hh))]

/-- Claim C3 (amended): for every face with positive dimensions and every
non-negative `s`, `t`, `sampleFace` returns
`readTexel(face, min(⌊s*width⌋, width-1), min(⌊t*height⌋, height-1))`.
(For negative `s` or `t` the cast truncates toward zero instead of
flooring.) -/
theorem sampleFace_nearest (cm : Cubemap) (face : Nat) (hf : face < 6)
    (s t : ℚ) (hw : 0 < (cm.faces ⟨face, hf⟩).width)
    (hh : 0 < (cm.faces ⟨face, hf⟩).height)
    (hs : 0 ≤ s) (ht : 0 ≤ t) :
    sampleFace cm face s t = readTexel cm face
      (min ⌊s * ((cm.faces ⟨face, hf⟩).width : ℚ)⌋
        ((cm.faces ⟨face, hf⟩).width - 1))
      (min ⌊t * ((cm.faces ⟨face, hf⟩).height : ℚ)⌋
        ((cm.faces ⟨face, hf⟩).height - 1)) :=
  sampleFace_floor_of_nonneg cm face hf s t hw.le hh.le hs ht

theorem sampleFace_nearest_witness :
    (0 : ℤ) < (exCube2.faces ⟨0, by norm_num⟩).width ∧
    (0 : ℤ) < (exCube2.faces ⟨0, by norm_num⟩).height ∧
    (0:ℚ) ≤ 3/4 ∧ (0:ℚ) ≤ 1/4 ∧
    sampleFace exCube2 0 (3/4) (1/4) = readTexel exCube2 0
      (min ⌊(3/4 : ℚ) * ((exCube2.faces ⟨0, by norm_num⟩).width : ℚ)⌋
        ((exCube2.faces ⟨0, by norm_num⟩).width - 1))
      (min ⌊(1/4 : ℚ) * ((exCube2.faces ⟨0, by norm_num⟩).height : ℚ)⌋
        ((exCube2.faces ⟨0, by norm_num⟩).height - 1)) :=
  ⟨by decide, by decide, by norm_num, by norm_num,
    sampleFace_nearest exCube2 0 (by norm_num) (3/4) (1/4)
      (by decide) (by decide) (by norm_num) (by norm_num)⟩

/-- Claim C5: sampling at the exact center of texel `(x, y)` returns
`readTexel(face, x, y)` — the nearest-neighbor round-trip. -/
theorem sampleFace_center_roundtrip (cm : Cubemap) (face : Nat)
    (hf : face < 6) (x y : Int)
    (hx0 : 0 ≤ x) (hx1 : x < (cm.faces ⟨face, hf⟩).width)
    (hy0 : 0 ≤ y) (hy1 : y < (cm.faces ⟨face, hf⟩).height) :
    sampleFace cm face
      (((x:ℚ) + 1/2) / ((cm.faces ⟨face, hf⟩).width : ℚ))
      (((y:ℚ) + 1/2) / ((cm.faces ⟨face, hf⟩).height : ℚ)) =
    readTexel cm face x y := by
  have hw : (0:ℤ) < (cm.faces ⟨face, hf⟩).width := lt_of_le_of_lt hx0 hx1
  have hh : (0:ℤ) < (cm.faces ⟨face, hf⟩).height := lt_of_le_of_lt hy0 hy1
  have hwQ : (((cm.faces ⟨face, hf⟩).width : ℤ) : ℚ) ≠ 0 := by
    exact_mod_cast hw.ne'
  have hhQ : (((cm.faces ⟨face, hf⟩).height : ℤ) : ℚ) ≠ 0 := by
    exact_mod_cast hh.ne'
  have hcs : ((x:ℚ) + 1/2) / ((cm.faces ⟨face, hf⟩).width : ℚ) *
      ((cm.faces ⟨face, hf⟩).width : ℚ) = (x:ℚ) + 1/2 :=
    div_mul_cancel₀ _ hwQ
  have hct : ((y:ℚ) + 1/2) / ((cm.faces ⟨face, hf⟩).height : ℚ) *
      ((cm.faces ⟨face, hf⟩).height : ℚ) = (y:ℚ) + 1/2 :=
    div_mul_cancel₀ _ hhQ
  have hfs : ⌊(x:ℚ) + 1/2⌋ = x := by
    rw [show (x:ℚ) + 1/2 = (1/2 : ℚ) + (x:ℤ) by push_cast; ring,
      Int.floor_add_int]
    norm_num
  have hft : ⌊(y:ℚ) + 1/2⌋ = y := by
    rw [show (y:ℚ) + 1/2 = (1/2 : ℚ) + (y:ℤ) by push_cast; ring,
      Int.floor_add_int]
    norm_num
  rw [sampleFace_unfold cm face hf, hcs, hct,
    cppTrunc_of_nonneg _ (by positivity), cppTrunc_of_nonneg _ (by positivity),
    hfs, hft, min_eq_left (by omega), min_eq_left (by omega)]

theorem sampleFace_center_roundtrip_witness :
    (0:ℤ) ≤ 1 ∧ (1:ℤ) < (exCube2.faces ⟨0, by norm_num⟩).width ∧
    (0:ℤ) ≤ 0 ∧ (0:ℤ) < (exCube2.faces ⟨0, by norm_num⟩).height ∧
    sampleFace exCube2 0
      ((((1:ℤ):ℚ) + 1/2) / ((exCube2.faces ⟨0, by norm_num⟩).width : ℚ))
      ((((0:ℤ):ℚ) + 1/2) / ((exCube2.faces ⟨0, by norm_num⟩).height : ℚ)) =
    readTexel exCube2 0 1 0 :=
  ⟨by decide, by decide, by decide, by decide,
    sampleFace_center_roundtrip exCube2 0 (by norm_num) 1 0
      (by decide) (by decide) (by decide) (by decide)⟩

/-- Claim C8 is refuted as stated: the call `readTexel(exCube, 0, -1, 0)`
violates the precondition `0 ≤ x`, yet no assert fires — the C++ asserts
check only the upper bounds, and the access is a silent out-of-range
read. -/
theorem readTexel_assert_counterexample :
    readTexel exCube 0 (-1) 0 = .oobRead ∧
      readTexel exCube 0 (-1) 0 ≠ .assertFailed := by
  decide

/-- Claim C8 (amended): the hard asserts catch exactly the upper-bound
violations — a face id that is not below 6, an `x` at or beyond the face
width, or a `y` at or beyond the face height; lower-bound (negative
coordinate) violations pass the asserts. -/
theorem readTexel_assert_upper (cm : Cubemap) (face : Nat) (x y : Int)
    (h : 6 ≤ face ∨ ∃ hf : face < 6,
      (cm.faces ⟨face, hf⟩).width ≤ x ∨ (cm.faces ⟨face, hf⟩).height ≤ y) :
    readTexel cm face x y = .assertFailed := by
  rcases h with h | ⟨hf, h⟩
  · rw [readTexel, dif_neg (by omega)]
  · rw [readTexel, dif_pos hf, readTexelImg, if_neg]
    intro hc
    rcases h with h | h
    · exact absurd hc.1 (not_lt.mpr h)
    · exact absurd hc.2 (not_lt.mpr h)

theorem readTexel_assert_upper_witness :
    (6 ≤ 7 ∨ ∃ hf : 7 < 6,
      (exCube.faces ⟨7, hf⟩).width ≤ 0 ∨ (exCube.faces ⟨7, hf⟩).height ≤ 0) ∧
    readTexel exCube 7 0 0 = .assertFailed :=
  ⟨Or.inl (by norm_num),
    readTexel_assert_upper exCube 7 0 0 (Or.inl (by norm_num))⟩

/-! ### The output buffer: indexing the pixel loop -/

theorem foldl_set_length {α γ : Type} (l : List γ) (F : γ → Nat)
    (g : γ → α) (b : List α) :
    (l.foldl (fun buf q => buf.set (F q) (g q)) b).length = b.length := by
  induction l generalizing b with
  | nil => rfl
  | cons a l ih => rw [List.foldl_cons, ih, List.length_set]

theorem foldl_set_get_not_mem {α γ : Type} (l : List γ) (F : γ → Nat)
    (g : γ → α) (b : List α) (i : Nat) (hi : ∀ q ∈ l, F q ≠ i) :
    (l.foldl (fun buf q => buf.set (F q) (g q)) b)[i]? = b[i]? := by
  induction l generalizing b with
  | nil => rfl
  | cons a l ih =>
    rw [List.foldl_cons, ih _ (fun q hq => hi q (List.mem_cons_of_mem a hq)),
      List.getElem?_set, if_neg (hi a (List.mem_cons_self a l))]

theorem foldl_set_get_mem {α γ : Type} (l : List γ) (F : γ → Nat)
    (g : γ → α) (b : List α) (p : γ) (hp : p ∈ l)
    (hinj : ∀ q ∈ l, F q = F p → q = p)
    (hlen : F p < b.length) :
    (l.foldl (fun buf q => buf.set (F q) (g q)) b)[F p]? = some (g p) := by
  induction l generalizing b with
  | nil => cases hp
  | cons a l ih =>
    rw [List.foldl_cons]
    by_cases hpl : p ∈ l
    · exact ih _ hpl (fun q hq he => hinj q (List.mem_cons_of_mem a hq) he)
        (by rw [List.length_set]; exact hlen)
    · have hpa : p = a := by
        rcases List.mem_cons.mp hp with h | h
        · exact h
        · exact absurd h hpl
      subst hpa
      rw [foldl_set_get_not_mem l F g _ (F p) ?_]
      · rw [List.getElem?_set, if_pos rfl, if_pos hlen]
      · intro q hq he
        exact hpl ((hinj q (List.mem_cons_of_mem p hq) he) ▸ hq)

theorem mem_pixelList (N : Nat) (p : Nat × Nat) :
    p ∈ pixelList N ↔ p.1 < N ∧ p.2 < N := by
  rcases p with ⟨a, b⟩
  simp only [pixelList, List.mem_flatten, List.mem_map, List.mem_range]
  constructor
  · rintro ⟨l, ⟨yv, hyv, rfl⟩, hmem⟩
    rcases List.mem_map.mp hmem with ⟨xv, hxv, he⟩
    rcases Prod.mk.injEq .. ▸ he with ⟨h1, h2⟩
    exact ⟨h1 ▸ List.mem_range.mp hxv, h2 ▸ hyv⟩
  · rintro ⟨ha, hb⟩
    exact ⟨(List.range N).map (fun xv => (xv, b)), ⟨b, hb, rfl⟩,
      List.mem_map.mpr ⟨a, List.mem_range.mpr ha, rfl⟩⟩

/-- The pixel loop writes pixel `(x, y)` to row-major index `y*N + x`,
and no other iteration touches that index. -/
theorem generate_get (sq : ℚ → ℚ) (cm : Cubemap) (N x y : Nat)
    (hx : x < N) (hy : y < N) :
    (generate sq cm N)[y * N + x]? = some (spheremapPixel sq cm N x y) := by
  have hN : 0 < N := lt_of_le_of_lt (Nat.zero_le x) hx
  have hmem : ((x, y) : Nat × Nat) ∈ pixelList N :=
    (mem_pixelList N (x, y)).mpr ⟨hx, hy⟩
  have hinj : ∀ q ∈ pixelList N,
      q.2 * N + q.1 = y * N + x → q = (x, y) := by
    rintro ⟨q1, q2⟩ hq he
    rcases (mem_pixelList N (q1, q2)).mp hq with ⟨h1, h2⟩
    simp only at h1 h2 he
    have hA : (q2 * N + q1) % N = q1 % N := by
      rw [Nat.add_comm, Nat.add_mul_mod_self_right]
    have hB : (y * N + x) % N = x % N := by
      rw [Nat.add_comm, Nat.add_mul_mod_self_right]
    have e1 : q1 = x := by
      rw [← Nat.mod_eq_of_lt h1, ← Nat.mod_eq_of_lt hx, ← hA, ← hB, he]
    have e2 : q2 = y := by
      rw [e1] at he
      exact Nat.eq_of_mul_eq_mul_right hN (by omega)
    rw [e1, e2]
  have hlen : y * N + x <
      (List.replicate (N*N) (TexelResult.ok 0)).length := by
    rw [List.length_replicate]
    calc y * N + x < y * N + N := by omega
    _ = (y+1) * N := by ring
    _ ≤ N * N := Nat.mul_le_mul_right N (by omega)
  rw [generate]
  exact foldl_set_get_mem (pixelList N) (fun p => p.2 * N + p.1)
    (fun p => spheremapPixel sq cm N p.1 p.2) _ (x, y) hmem hinj hlen

/-! ### Claim C2: the per-pixel formula and row-major storage -/

theorem pixelDirection_eq_spec (sq : ℚ → ℚ) (s t : ℚ) :
    pixelDirection sq s t = specPixelDirection sq s t := by
  have h : revP s t = 16 * (s - s^2 + t - t^2) - 4 := by rw [revP]; ring
  rw [pixelDirection, specPixelDirection, h]
  split_ifs with hc
  · rfl
  · simp only [Prod.mk.injEq]
    exact ⟨by ring, by ring, by ring⟩

theorem spheremapPixel_eq_spec (sq : ℚ → ℚ) (cm : Cubemap) (N x y : Nat) :
    spheremapPixel sq cm N x y = specPixel sq cm N x y := by
  rw [spheremapPixel, specPixel, unlerp, unlerp, pixelDirection_eq_spec]

/-- Claim C2: for every output pixel `(x, y)` with `x, y < output_size`,
the generator computes `s = (x+0.5)/N`, `t = (y+0.5)/N`,
`rev_p = 16*(s - s² + t - t²) - 4`, uses direction `(0,0,-1)` when
`rev_p < 0` and `(r*(2s-1), -r*(2t-1), 8*(s-s²+t-t²)-3)` with
`r = sqrt(rev_p)` otherwise, classifies and samples that direction via the
cubemap store, and stores the result at row-major index `y*N + x`. -/
theorem generate_stores_spec_pixel (sq : ℚ → ℚ) (cm : Cubemap) (N x y : Nat)
    (hx : x < N) (hy : y < N) :
    (generate sq cm N)[y * N + x]? = some (specPixel sq cm N x y) := by
  rw [generate_get sq cm N x y hx hy, spheremapPixel_eq_spec]

theorem generate_stores_spec_pixel_witness :
    0 < 1 ∧ (generate (fun q => q) exCube 1)[0 * 1 + 0]? =
      some (specPixel (fun q => q) exCube 1 0 0) :=
  ⟨Nat.one_pos,
    generate_stores_spec_pixel (fun q => q) exCube 1 0 0 Nat.one_pos Nat.one_pos⟩

/-! ### Safety of the generated pixels (Claims C9, C10) -/

theorem floorCoord_bounds (s : ℚ) (w : Int) (hw : 0 < w) (h0 : 0 ≤ s) :
    0 ≤ min ⌊s * (w:ℚ)⌋ (w - 1) ∧ min ⌊s * (w:ℚ)⌋ (w - 1) < w := by
  have hsw : 0 ≤ s * (w:ℚ) := mul_nonneg h0 (by exact_mod_cast hw.le)
  exact ⟨le_min (Int.floor_nonneg.mpr hsw) (by omega),
    lt_of_le_of_lt (min_le_right _ _) (by omega)⟩

theorem truncCoord_bounds (s : ℚ) (w : Int) (hw : 0 < w) (h0 : 0 ≤ s) :
    0 ≤ min (cppTrunc (s * (w:ℚ))) (w - 1) ∧
      min (cppTrunc (s * (w:ℚ))) (w - 1) < w := by
  have hsw : 0 ≤ s * (w:ℚ) := mul_nonneg h0 (by exact_mod_cast hw.le)
  rw [cppTrunc_of_nonneg _ hsw]
  exact floorCoord_bounds s w hw h0

/-- An in-bounds texel access on a well-formed face succeeds. -/
theorem readTexel_ok (cm : Cubemap) (face : Nat) (hf : face < 6) (x y : Int)
    (hwf : (cm.faces ⟨face, hf⟩).wf)
    (hx0 : 0 ≤ x) (hx1 : x < (cm.faces ⟨face, hf⟩).width)
    (hy0 : 0 ≤ y) (hy1 : y < (cm.faces ⟨face, hf⟩).height) :
    ∃ c, readTexel cm face x y = .ok c := by
  obtain ⟨hw, hh, hlen⟩ := hwf
  have hidx0 : 0 ≤ y * (cm.faces ⟨face, hf⟩).width + x :=
    add_nonneg (mul_nonneg hy0 hw.le) hx0
  have hidx1 : y * (cm.faces ⟨face, hf⟩).width + x <
      ((cm.faces ⟨face, hf⟩).data.length : Int) := by
    have h1 : y * (cm.faces ⟨face, hf⟩).width + x <
        (cm.faces ⟨face, hf⟩).width * (cm.faces ⟨face, hf⟩).height := by
      calc y * (cm.faces ⟨face, hf⟩).width + x
          < y * (cm.faces ⟨face, hf⟩).width + (cm.faces ⟨face, hf⟩).width := by
            linarith
        _ = (y + 1) * (cm.faces ⟨face, hf⟩).width := by ring
        _ ≤ (cm.faces ⟨face, hf⟩).height * (cm.faces ⟨face, hf⟩).width :=
            mul_le_mul_of_nonneg_right (by linarith) hw.le
        _ = (cm.faces ⟨face, hf⟩).width * (cm.faces ⟨face, hf⟩).height :=
            mul_comm _ _
    have h2 : ((cm.faces ⟨face, hf⟩).data.length : Int) =
        (cm.faces ⟨face, hf⟩).width * (cm.faces ⟨face, hf⟩).height := by
      rw [hlen]
      push_cast
      rw [Int.toNat_of_nonneg hw.le, Int.toNat_of_nonneg hh.le]
    rw [h2]
    exact h1
  have hlt : (y * (cm.faces ⟨face, hf⟩).width + x).toNat <
      (cm.faces ⟨face, hf⟩).data.length := by
    have hpos : (0:ℤ) < ((cm.faces ⟨face, hf⟩).data.length : Int) :=
      lt_of_le_of_lt hidx0 hidx1
    have := (Int.toNat_lt_toNat hpos).mpr hidx1
    simpa using this
  rw [readTexel, dif_pos hf, readTexelImg, if_pos ⟨hx1, hy1⟩, if_pos hidx0,
    List.getElem?_eq_getElem hlt]
  exact ⟨_, rfl⟩

/-- In exact arithmetic, the pixel loop never produces the zero
direction: on the `rev_p < 0` branch the direction is `(0,0,-1)`, and on
the other branch a zero `z`-component forces `rev_p = 2 > 0`, whose
square root is nonzero, together with `(s,t) ≠ (1/2,1/2)`. -/
theorem pixelDirection_nonzero (sq : ℚ → ℚ) (s t : ℚ)
    (hsq : ∀ q, 0 < q → sq q ≠ 0) :
    pixelDirection sq s t ≠ (0, 0, 0) := by
  rw [pixelDirection]
  split_ifs with h
  · intro he
    simp only [Prod.mk.injEq] at he
    norm_num at he
  · push_neg at h
    intro he
    simp only [Prod.mk.injEq] at he
    obtain ⟨h1, h2, h3⟩ := he
    have hq : s - s*s + t - t*t = 3/8 := by linarith
    have hrp : revP s t = 2 := by rw [revP, hq]; norm_num
    have hr : sq (revP s t) ≠ 0 := hsq _ (by rw [hrp]; norm_num)
    have hs : s = 1/2 := by
      rcases mul_eq_zero.mp h1 with h' | h'
      · exact absurd h' hr
      · linarith
    have ht : t = 1/2 := by
      rcases mul_eq_zero.mp h2 with h' | h'
      · exact absurd h' hr
      · linarith
    rw [hs, ht] at hq
    norm_num at hq

/-- Every pixel produced by the loop body is an in-bounds texel read of
one of the six faces (for a well-formed cubemap and a square root that is
nonzero on positive inputs). -/
theorem spheremapPixel_ok (sq : ℚ → ℚ) (cm : Cubemap) (N x y : Nat)
    (hwf : Cubemap.wf cm) (hsq : ∀ q, 0 < q → sq q ≠ 0) :
    ∃ f, ∃ hf : f < 6, ∃ tx ty : Int,
      0 ≤ tx ∧ tx < (cm.faces ⟨f, hf⟩).width ∧
      0 ≤ ty ∧ ty < (cm.faces ⟨f, hf⟩).height ∧
      spheremapPixel sq cm N x y = readTexel cm f tx ty ∧
      ∃ c, readTexel cm f tx ty = .ok c := by
  rcases hD : pixelDirection sq (unlerp x N) (unlerp y N) with ⟨d1, d2, d3⟩
  have hstep : spheremapPixel sq cm N x y =
      sampleFace cm (specFace d1 d2 d3) (specS d1 d2 d3) (specT d1 d2 d3) := by
    rw [spheremapPixel, hD]
    dsimp only
    rw [ctc_eq_spec]
    rfl
  have hf : specFace d1 d2 d3 < 6 := specFace_lt6 d1 d2 d3
  obtain ⟨hs0, hs1, ht0, ht1⟩ := spec_st_bounds d1 d2 d3
  have hwff := hwf ⟨specFace d1 d2 d3, hf⟩
  obtain ⟨hw, hh, -⟩ := hwf ⟨specFace d1 d2 d3, hf⟩
  have hsamp := sampleFace_floor_of_nonneg cm (specFace d1 d2 d3) hf
    (specS d1 d2 d3) (specT d1 d2 d3) hw.le hh.le hs0 ht0
  obtain ⟨hbx0, hbx1⟩ := floorCoord_bounds (specS d1 d2 d3) _ hw hs0
  obtain ⟨hby0, hby1⟩ := floorCoord_bounds (specT d1 d2 d3) _ hh ht0
  exact ⟨specFace d1 d2 d3, hf, _, _, hbx0, hbx1, hby0, hby1,
    hstep.trans hsamp,
    readTexel_ok cm (specFace d1 d2 d3) hf _ _ hwff hbx0 hbx1 hby0 hby1⟩

/-- Claim C10: in exact arithmetic every direction vector produced by the
per-pixel mapping is nonzero; `computeTexCoords` then yields coordinates
in `[0,1]`, so for well-formed faces the texel coordinates computed in
`sampleFace` satisfy `0 ≤ tx < width` and `0 ≤ ty < height`, and the
negative-index (lower-bound-unchecked) read path is unreachable: the
pixel is a successful texel read. -/
theorem generator_pixel_safe (sq : ℚ → ℚ) (cm : Cubemap) (N x y : Nat)
    (_hx : x < N) (_hy : y < N) (hwf : Cubemap.wf cm)
    (hsq : ∀ q, 0 < q → sq q ≠ 0) :
    pixelDirection sq (unlerp x N) (unlerp y N) ≠ (0, 0, 0) ∧
    ∃ f, ∃ hf : f < 6, ∃ sc tc : ℚ,
      computeTexCoords (pixelDirection sq (unlerp x N) (unlerp y N)).1
        (pixelDirection sq (unlerp x N) (unlerp y N)).2.1
        (pixelDirection sq (unlerp x N) (unlerp y N)).2.2 =
          some (f, sc, tc) ∧
      0 ≤ sc ∧ sc ≤ 1 ∧ 0 ≤ tc ∧ tc ≤ 1 ∧
      0 ≤ min (cppTrunc (sc * ((cm.faces ⟨f, hf⟩).width : ℚ)))
          ((cm.faces ⟨f, hf⟩).width - 1) ∧
      min (cppTrunc (sc * ((cm.faces ⟨f, hf⟩).width : ℚ)))
          ((cm.faces ⟨f, hf⟩).width - 1) < (cm.faces ⟨f, hf⟩).width ∧
      0 ≤ min (cppTrunc (tc * ((cm.faces ⟨f, hf⟩).height : ℚ)))
          ((cm.faces ⟨f, hf⟩).height - 1) ∧
      min (cppTrunc (tc * ((cm.faces ⟨f, hf⟩).height : ℚ)))
          ((cm.faces ⟨f, hf⟩).height - 1) < (cm.faces ⟨f, hf⟩).height ∧
      ∃ c, spheremapPixel sq cm N x y = .ok c := by
  refine ⟨pixelDirection_nonzero sq (unlerp x N) (unlerp y N) hsq, ?_⟩
  obtain ⟨f', hf', tx, ty, _, _, _, _, heq, c, hc⟩ :=
    spheremapPixel_ok sq cm N x y hwf hsq
  have hok : ∃ c, spheremapPixel sq cm N x y = .ok c :=
    ⟨c, by rw [heq]; exact hc⟩
  set D := pixelDirection sq (unlerp x N) (unlerp y N) with hDdef
  have hf : specFace D.1 D.2.1 D.2.2 < 6 := specFace_lt6 _ _ _
  obtain ⟨hs0, hs1, ht0, ht1⟩ := spec_st_bounds D.1 D.2.1 D.2.2
  obtain ⟨hw, hh, -⟩ := hwf ⟨specFace D.1 D.2.1 D.2.2, hf⟩
  obtain ⟨ha1, ha2⟩ := truncCoord_bounds (specS D.1 D.2.1 D.2.2) _ hw hs0
  obtain ⟨hb1, hb2⟩ := truncCoord_bounds (specT D.1 D.2.1 D.2.2) _ hh ht0
  exact ⟨specFace D.1 D.2.1 D.2.2, hf, specS D.1 D.2.1 D.2.2,
    specT D.1 D.2.1 D.2.2, ctc_eq_spec _ _ _,
    hs0, hs1, ht0, ht1, ha1, ha2, hb1, hb2, hok⟩

theorem generator_pixel_safe_witness :
    0 < 1 ∧ Cubemap.wf exCube ∧ (∀ q : ℚ, 0 < q → q ≠ 0) ∧
    (pixelDirection (fun q => q) (unlerp 0 1) (unlerp 0 1) ≠ (0, 0, 0) ∧
    ∃ f, ∃ hf : f < 6, ∃ sc tc : ℚ,
      computeTexCoords (pixelDirection (fun q => q) (unlerp 0 1) (unlerp 0 1)).1
        (pixelDirection (fun q => q) (unlerp 0 1) (unlerp 0 1)).2.1
        (pixelDirection (fun q => q) (unlerp 0 1) (unlerp 0 1)).2.2 =
          some (f, sc, tc) ∧
      0 ≤ sc ∧ sc ≤ 1 ∧ 0 ≤ tc ∧ tc ≤ 1 ∧
      0 ≤ min (cppTrunc (sc * ((exCube.faces ⟨f, hf⟩).width : ℚ)))
          ((exCube.faces ⟨f, hf⟩).width - 1) ∧
      min (cppTrunc (sc * ((exCube.faces ⟨f, hf⟩).width : ℚ)))
          ((exCube.faces ⟨f, hf⟩).width - 1) < (exCube.faces ⟨f, hf⟩).width ∧
      0 ≤ min (cppTrunc (tc * ((exCube.faces ⟨f, hf⟩).height : ℚ)))
          ((exCube.faces ⟨f, hf⟩).height - 1) ∧
      min (cppTrunc (tc * ((exCube.faces ⟨f, hf⟩).height : ℚ)))
          ((exCube.faces ⟨f, hf⟩).height - 1) <
            (exCube.faces ⟨f, hf⟩).height ∧
      ∃ c, spheremapPixel (fun q => q) exCube 1 0 0 = .ok c) :=
  ⟨Nat.one_pos, by decide, fun q hq => ne_of_gt hq,
    generator_pixel_safe (fun q => q) exCube 1 0 0 Nat.one_pos Nat.one_pos
      (by decide) (fun q hq => ne_of_gt hq)⟩

/-- Claim C9: `generate` produces a buffer of exactly `N*N` entries, and
each entry equals an in-bounds `readTexel` of one of the six source
faces — pure nearest-neighbor selection, no blending. -/
theorem generate_output (sq : ℚ → ℚ) (cm : Cubemap) (N : Nat)
    (hwf : Cubemap.wf cm) (hsq : ∀ q, 0 < q → sq q ≠ 0) :
    (generate sq cm N).length = N * N ∧
    ∀ i < N * N, ∃ f, ∃ hf : f < 6, ∃ tx ty : Int,
      0 ≤ tx ∧ tx < (cm.faces ⟨f, hf⟩).width ∧
      0 ≤ ty ∧ ty < (cm.faces ⟨f, hf⟩).height ∧
      (generate sq cm N)[i]? = some (readTexel cm f tx ty) ∧
      ∃ c, readTexel cm f tx ty = .ok c := by
  constructor
  · rw [generate]
    exact (foldl_set_length _ _ _ _).trans (List.length_replicate _ _)
  · intro i hi
    have hN : 0 < N := by
      rcases Nat.eq_zero_or_pos N with h | h
      · rw [h] at hi; simp at hi
      · exact h
    have hx : i % N < N := Nat.mod_lt _ hN
    have hy : i / N < N := (Nat.div_lt_iff_lt_mul hN).mpr hi
    have hidx : (i / N) * N + i % N = i := by
      rw [mul_comm]; exact Nat.div_add_mod i N
    obtain ⟨f, hf, tx, ty, b1, b2, b3, b4, heq, hok⟩ :=
      spheremapPixel_ok sq cm N (i % N) (i / N) hwf hsq
    refine ⟨f, hf, tx, ty, b1, b2, b3, b4, ?_, hok⟩
    rw [← hidx, generate_get sq cm N (i % N) (i / N) hx hy, heq]

theorem generate_output_witness :
    Cubemap.wf exCube ∧ (∀ q : ℚ, 0 < q → q ≠ 0) ∧
    ((generate (fun q => q) exCube 2).length = 2 * 2 ∧
    ∀ i < 2 * 2, ∃ f, ∃ hf : f < 6, ∃ tx ty : Int,
      0 ≤ tx ∧ tx < (exCube.faces ⟨f, hf⟩).width ∧
      0 ≤ ty ∧ ty < (exCube.faces ⟨f, hf⟩).height ∧
      (generate (fun q => q) exCube 2)[i]? = some (readTexel exCube f tx ty) ∧
      ∃ c, readTexel exCube f tx ty = .ok c) :=
  ⟨by decide, fun q hq => ne_of_gt hq,
    generate_output (fun q => q) exCube 2 (by decide)
      (fun q hq => ne_of_gt hq)⟩

/-! ### Claim C7: the corner pixels -/

theorem corner_unlerp_q (N c : Nat) (hN : 0 < N) (hc : c = 0 ∨ c = N - 1) :
    unlerp c N - unlerp c N * unlerp c N =
      (2*(N:ℚ) - 1) / (4 * (N:ℚ)^2) := by
  have hNQ : (0:ℚ) < (N:ℚ) := by exact_mod_cast hN
  rcases hc with h | h
  · subst h
    have hu : unlerp 0 N = 1 / (2*(N:ℚ)) := by
      rw [unlerp, div_eq_div_iff hNQ.ne' (by positivity)]
      ring
    rw [hu, div_mul_div_comm,
      div_sub_div _ _ (by positivity : (2*(N:ℚ)) ≠ 0)
        (by positivity : (2*(N:ℚ))*(2*(N:ℚ)) ≠ 0),
      div_eq_div_iff (by positivity) (by positivity)]
    ring
  · subst h
    have hu : unlerp (N-1) N = (2*(N:ℚ) - 1) / (2*(N:ℚ)) := by
      rw [unlerp, Nat.cast_sub hN, div_eq_div_iff hNQ.ne' (by positivity)]
      push_cast
      ring
    rw [hu, div_mul_div_comm,
      div_sub_div _ _ (by positivity : (2*(N:ℚ)) ≠ 0)
        (by positivity : (2*(N:ℚ))*(2*(N:ℚ)) ≠ 0),
      div_eq_div_iff (by positivity) (by positivity)]
    ring

theorem corner_revP_neg (N : Nat) (hN : 4 ≤ N) (cx cy : Nat)
    (hcx : cx = 0 ∨ cx = N - 1) (hcy : cy = 0 ∨ cy = N - 1) :
    revP (unlerp cx N) (unlerp cy N) < 0 := by
  have hN0 : 0 < N := by omega
  have h1 := corner_unlerp_q N cx hN0 hcx
  have h2 := corner_unlerp_q N cy hN0 hcy
  have hNQ : (4:ℚ) ≤ (N:ℚ) := by exact_mod_cast hN
  rw [revP]
  have he : unlerp cx N - unlerp cx N * unlerp cx N + unlerp cy N -
      unlerp cy N * unlerp cy N =
      2 * ((2*(N:ℚ) - 1) / (4 * (N:ℚ)^2)) := by linarith
  rw [he]
  have hd : 2 * ((2*(N:ℚ) - 1) / (4 * (N:ℚ)^2)) =
      (2*(N:ℚ) - 1) / (2 * (N:ℚ)^2) := by
    have hNQ0 : (N:ℚ) ≠ 0 := by positivity
    field_simp
    ring
  rw [hd]
  have hlt : (2*(N:ℚ) - 1) / (2 * (N:ℚ)^2) < 1/4 := by
    rw [div_lt_iff (by positivity)]
    nlinarith [sq_nonneg ((N:ℚ) - 4)]
  linarith

theorem floor_half_int (w : Int) : ⌊(1/2 : ℚ) * (w:ℚ)⌋ = w / 2 := by
  have h1 : 2 * (w / 2) ≤ w := by omega
  have h2 : w < 2 * (w / 2) + 2 := by omega
  rw [Int.floor_eq_iff]
  constructor
  · have hc : ((2 * (w / 2) : ℤ) : ℚ) ≤ ((w : ℤ) : ℚ) := by exact_mod_cast h1
    push_cast at hc ⊢
    linarith
  · have hc : ((w : ℤ) : ℚ) < ((2 * (w / 2) + 2 : ℤ) : ℚ) := by exact_mod_cast h2
    push_cast at hc ⊢
    linarith

/-- Sampling at `(1/2, 1/2)` reads the center texel `(w/2, h/2)`. -/
theorem sampleFace_center (cm : Cubemap) (face : Nat) (hf : face < 6)
    (hw : 0 < (cm.faces ⟨face, hf⟩).width)
    (hh : 0 < (cm.faces ⟨face, hf⟩).height) :
    sampleFace cm face (1/2) (1/2) =
      readTexel cm face ((cm.faces ⟨face, hf⟩).width / 2)
        ((cm.faces ⟨face, hf⟩).height / 2) := by
  rw [sampleFace_unfold cm face hf,
    cppTrunc_of_nonneg _ (mul_nonneg (by norm_num) (by exact_mod_cast hw.le)),
    cppTrunc_of_nonneg _ (mul_nonneg (by norm_num) (by exact_mod_cast hh.le)),
    floor_half_int, floor_half_int,
    min_eq_left (by omega), min_eq_left (by omega)]

theorem ctc_back : computeTexCoords 0 0 (-1) = some (5, 1/2, 1/2) := by
  rw [ctc_negZ] <;> norm_num

/-- Claim C7 is refuted as stated: for output_size 2 the corner pixel
`(0,0)` has `rev_p = 2 ≥ 0`, so the direction is not `(0,0,-1)`; with the
identity as square root the pixel samples face -X (color 11 of the test
cubemap), not the center of face -Z (color 15). -/
theorem corners_counterexample :
    revP (unlerp 0 2) (unlerp 0 2) = 2 ∧
    ¬(revP (unlerp 0 2) (unlerp 0 2) < 0) ∧
    spheremapPixel (fun q => q) exCube 2 0 0 = .ok 11 ∧
    readTexel exCube 5 ((exCube.faces ⟨5, by norm_num⟩).width / 2)
      ((exCube.faces ⟨5, by norm_num⟩).height / 2) = .ok 15 ∧
    TexelResult.ok 11 ≠ TexelResult.ok 15 := by
  have h1 : revP (unlerp 0 2) (unlerp 0 2) = 2 := by
    norm_num [revP, unlerp]
  refine ⟨h1, by rw [h1]; norm_num, ?_, by decide, by decide⟩
  have hd : pixelDirection (fun q => q) (unlerp 0 2) (unlerp 0 2) =
      (-1, 1, 0) := by
    rw [pixelDirection, if_neg (by rw [h1]; norm_num), h1]
    norm_num [unlerp]
  have hctc : computeTexCoords (-1) 1 0 = some (1, 1/2, 0) := by
    rw [ctc_negX] <;> norm_num
  rw [spheremapPixel, hd]
  dsimp only
  rw [hctc]
  show sampleFace exCube 1 (1/2) 0 = _
  rw [sampleFace_unfold exCube 1 (by norm_num)]
  have e1 : cppTrunc ((1/2 : ℚ) *
      ((exCube.faces ⟨1, by norm_num⟩).width : ℚ)) = 0 := by
    norm_num [cppTrunc, exCube]
  have e2 : cppTrunc ((0 : ℚ) *
      ((exCube.faces ⟨1, by norm_num⟩).height : ℚ)) = 0 := by
    norm_num [cppTrunc, exCube]
  rw [e1, e2]
  decide

/-- Claim C7 (amended): for every output_size of at least 4, each of the
four corner pixels has negative `rev_p`, gets direction `(0,0,-1)`, and
samples the center texel `(w/2, h/2)` of face -Z.  (For output sizes 1,
2 and 3 the corner `rev_p` is `4`, `2` and `4/9` respectively, so the
claim fails there.) -/
theorem corners_sample_backface (sq : ℚ → ℚ) (cm : Cubemap) (N cx cy : Nat)
    (hN : 4 ≤ N) (hcx : cx = 0 ∨ cx = N - 1) (hcy : cy = 0 ∨ cy = N - 1)
    (hw : 0 < (cm.faces ⟨5, by norm_num⟩).width)
    (hh : 0 < (cm.faces ⟨5, by norm_num⟩).height) :
    revP (unlerp cx N) (unlerp cy N) < 0 ∧
    pixelDirection sq (unlerp cx N) (unlerp cy N) = (0, 0, -1) ∧
    spheremapPixel sq cm N cx cy =
      readTexel cm 5 ((cm.faces ⟨5, by norm_num⟩).width / 2)
        ((cm.faces ⟨5, by norm_num⟩).height / 2) := by
  have hneg := corner_revP_neg N hN cx cy hcx hcy
  have hdir : pixelDirection sq (unlerp cx N) (unlerp cy N) = (0, 0, -1) := by
    rw [pixelDirection, if_pos hneg]
  refine ⟨hneg, hdir, ?_⟩
  rw [spheremapPixel, hdir]
  dsimp only
  rw [ctc_back]
  show sampleFace cm 5 (1/2) (1/2) = _
  exact sampleFace_center cm 5 (by norm_num) hw hh

theorem corners_sample_backface_witness :
    4 ≤ 4 ∧ ((0:ℕ) = 0 ∨ (0:ℕ) = 4 - 1) ∧ ((3:ℕ) = 0 ∨ (3:ℕ) = 4 - 1) ∧
    0 < (exCube.faces ⟨5, by norm_num⟩).width ∧
    0 < (exCube.faces ⟨5, by norm_num⟩).height ∧
    (revP (unlerp 0 4) (unlerp 3 4) < 0 ∧
     pixelDirection (fun q => q) (unlerp 0 4) (unlerp 3 4) = (0, 0, -1) ∧
     spheremapPixel (fun q => q) exCube 4 0 3 =
       readTexel exCube 5 ((exCube.faces ⟨5, by norm_num⟩).width / 2)
         ((exCube.faces ⟨5, by norm_num⟩).height / 2)) :=
  ⟨le_refl 4, Or.inl rfl, Or.inr rfl, by decide, by decide,
    corners_sample_backface (fun q => q) exCube 4 0 3 (le_refl 4)
      (Or.inl rfl) (Or.inr rfl) (by decide) (by decide)⟩
